import Mathlib

/-!
Verification development for the xpm-liquid substitution module
(src/lib/xpm-liquid.ts).

The module is embedded shallowly:
  - JavaScript values reachable from a package descriptor are modelled by
    `JValue`; `Option JValue` stands for a possibly-undefined value
    (`none` = JS `undefined`).
  - Object field access, spread, and merge are modelled on association
    lists (`Fields`), with JS object semantics: lookup returns the value
    of the first matching key, spread overrides values in place and
    appends new keys.
  - `prepareMap` returns `Except PrepErr XpmLiquidMap`; thrown JS errors
    become `PrepErr.thrown msg`, a JS `TypeError` from property access on
    `null` becomes `PrepErr.typeError`, a failed `assert` becomes
    `PrepErr.assertionFailed`.
  - The `env`/`os`/`path` fields of the liquid map are verbatim copies of
    ambient host state with no computation; only the host end-of-line
    marker (used by `_joinMultiLineProperties`) feeds any logic, so it is
    passed as the `eol` parameter and the copied host fields are elided
    from the record.
  - Built-in properties of JS primitives and arrays (such as `length` or
    numeric string indices) are not modelled; property access on them
    yields `undefined`, which is the behaviour the module relies on.
-/

/-- A JavaScript (JSON-like) runtime value. `none : Option JValue` plays
the role of JS `undefined` where a value may be absent. -/
inductive JValue where
  | null
  | str (s : String)
  | num (n : Int)
  | bool (b : Bool)
  | arr (elems : List JValue)
  | obj (fields : List (String × JValue))

/-- The fields of a JS object, in insertion order. -/
abbrev Fields := List (String × JValue)

/-- JS object field read: the value of the first entry with the given
key, or `none` (undefined) when no entry matches. -/
def lookupField : Fields → String → Option JValue
  | [], _ => none
  | kv :: rest, key => if kv.1 == key then some kv.2 else lookupField rest key

/-- JS object field write as performed by an object literal that repeats
a key (for example a spread followed by an explicit field): an existing
key keeps its position and gets the new value, a new key is appended. -/
def setField (fs : Fields) (key : String) (v : JValue) : Fields :=
  if (lookupField fs key).isSome then
    fs.map (fun kv => if kv.1 == key then (kv.1, v) else kv)
  else
    fs ++ [(key, v)]

/-- The object literal spread merge: later fields win on key
collision, keys only on one side are kept; keys of the first operand
keep their positions, new keys of the second are appended. -/
def spreadFields (a b : Fields) : Fields :=
  a.map (fun kv => (kv.1, (lookupField b kv.1).getD kv.2)) ++
    b.filter (fun kv => (lookupField a kv.1).isNone)

/-- JS falsiness of a value (used by `assert(packageJson)`). -/
def isFalsy : JValue → Bool
  | .null => true
  | .bool b => !b
  | .num n => n == 0
  | .str s => s == ""
  | .arr _ => false
  | .obj _ => false

/-- Source `_isPrimitive`: true for values whose `typeof` is neither
object nor function, or for `null`. -/
def _isPrimitive : JValue → Bool
  | .null => true
  | .str _ => true
  | .num _ => true
  | .bool _ => true
  | .arr _ => false
  | .obj _ => false

/-- `Array.isArray`. -/
def isArray : JValue → Bool
  | .arr _ => true
  | _ => false

/-- Source `_isJsonObject`: defined, not primitive, not an array. -/
def _isJsonObject (v : Option JValue) : Bool :=
  match v with
  | none => false
  | some v => !(_isPrimitive v) && !(isArray v)

/-- Property access on a value known not to be `null` or `undefined`
(all call sites are guarded): objects yield their field, primitives and
arrays yield `undefined` (built-in properties not modelled). -/
def getProp : JValue → String → Option JValue
  | .obj fs, key => lookupField fs key
  | _, _ => none

/-- Property access on a possibly-undefined value, at call sites where
the receiver is guarded by `_isJsonObject` (so never actually
`undefined` or `null` when read). -/
def getPropOpt : Option JValue → String → Option JValue
  | some v, key => getProp v key
  | none, _ => none

/-- JS `String.prototype.trim`: the string with leading and trailing
whitespace removed. -/
def jsTrim (s : String) : String :=
  String.mk
    (((s.data.dropWhile Char.isWhitespace).reverse.dropWhile
      Char.isWhitespace).reverse)

/-- The errors `prepareMap` can raise. -/
inductive PrepErr where
  | thrown (msg : String)
  | typeError
  | assertionFailed
deriving DecidableEq

/-- Property access (dot or bracket) on a value that is known to be
defined but may be `null`: on `null` JS throws a `TypeError`. -/
def jsAccess : JValue → String → Except PrepErr (Option JValue)
  | .null, _ => .error .typeError
  | .obj fs, key => .ok (lookupField fs key)
  | _, _ => .ok none

/-- The own enumerable entries produced by spreading a value into an
object literal: objects contribute their fields, strings and arrays
contribute index-keyed entries, primitives contribute nothing. -/
def jsSpreadValue : JValue → Fields
  | .obj fs => fs
  | .str s => s.data.enum.map (fun p => (toString p.1, JValue.str (String.singleton p.2)))
  | .arr xs => xs.enum.map (fun p => (toString p.1, p.2))
  | _ => []

/-- The fields of a value guarded by `_isJsonObject` (such guarded
values are always `JValue.obj`). -/
def objFields : Option JValue → Fields
  | some (.obj fs) => fs
  | _ => []

/-- Stringification of an element inside `Array.prototype.join`:
strings are used as-is, numbers and booleans take their decimal/keyword
form, `null` renders empty. Nested arrays and objects inside a property
value are outside the module's `Properties` type; their host
stringification is not modelled further. -/
def joinElementToString : JValue → String
  | .str s => s
  | .num n => toString n
  | .bool b => if b then "true" else "false"
  | .null => ""
  | .arr _ => ""
  | .obj _ => "[object Object]"

/-- Source `_joinMultiLineProperties`: each array value is joined into a
single string with the host end-of-line marker, every other value is
kept unchanged. -/
def _joinMultiLineProperties (eol : String) (properties : Fields) : Fields :=
  properties.map (fun kv =>
    (kv.1,
      match kv.2 with
      | JValue.arr xs => JValue.str (String.intercalate eol (xs.map joinElementToString))
      | v => v))

/-- The computed part of the liquid substitution map. The `env`, `os`
and `path` fields of the source record are verbatim copies of ambient
host state and carry no logic; they are elided here (see module
comment). -/
structure XpmLiquidMap where
  package : JValue
  configuration : Option Fields
  properties : Fields

/-- Source `XpmLiquid.prepareMap`, with the host end-of-line marker
passed explicitly. -/
def prepareMap (eol : String) (packageJson : JValue)
    (buildConfigurationName : Option String) : Except PrepErr XpmLiquidMap :=
  if isFalsy packageJson then .error .assertionFailed else
  let xpack := getProp packageJson "xpack"
  if _isJsonObject xpack then
    let xprops := getPropOpt xpack "properties"
    let baseProperties : Fields :=
      if _isJsonObject xprops then _joinMultiLineProperties eol (objFields xprops) else []
    match buildConfigurationName with
    | some name =>
      if jsTrim name != "" then
        match getPropOpt xpack "buildConfigurations" with
        | none => .error (.thrown "package.json has no buildConfigurations")
        | some buildConfigurations =>
          match jsAccess buildConfigurations name with
          | .error e => .error e
          | .ok none =>
              .error (.thrown ("package.json has no buildConfiguration." ++ name))
          | .ok (some buildConfiguration) =>
            match jsAccess buildConfiguration "properties" with
            | .error e => .error e
            | .ok bcProps =>
              .ok
                { package := packageJson
                  configuration :=
                    some (setField (jsSpreadValue buildConfiguration) "name"
                      (JValue.str name))
                  properties :=
                    if _isJsonObject bcProps then
                      spreadFields baseProperties
                        (_joinMultiLineProperties eol (objFields bcProps))
                    else baseProperties }
      else
        .ok { package := packageJson, configuration := none,
              properties := baseProperties }
    | none =>
      .ok { package := packageJson, configuration := none,
            properties := baseProperties }
  else
    .ok { package := packageJson, configuration := none, properties := [] }

/-! ## Filesystem-name sanitization filters -/

/-- Membership in the character class of the POSIX regex
`[a-zA-Z0-9/]` (the complement of the replaced class). -/
def posixAllowed (c : Char) : Bool :=
  (('a' ≤ c && c ≤ 'z') || ('A' ≤ c && c ≤ 'Z') ||
    ('0' ≤ c && c ≤ '9') || c == '/')

/-- Membership in the character class of the Windows regex
`[a-zA-Z0-9\:]` (the complement of the replaced class): backslash and
colon are preserved. -/
def win32Allowed (c : Char) : Bool :=
  (('a' ≤ c && c ≤ 'z') || ('A' ≤ c && c ≤ 'Z') ||
    ('0' ≤ c && c ≤ '9') || c == '\\' || c == ':')

/-- Global regex replacement of every maximal run of disallowed
characters by a single dash. `inRun` records whether the previous
character belonged to the run currently being replaced. -/
def replaceRunsAux (allowed : Char → Bool) : Bool → List Char → List Char
  | _, [] => []
  | inRun, c :: cs =>
    if allowed c then c :: replaceRunsAux allowed false cs
    else if inRun then replaceRunsAux allowed true cs
    else '-' :: replaceRunsAux allowed true cs

/-- `input.replace(regex-of-disallowed-runs, dash)` on a string. -/
def replaceDisallowedRuns (allowed : Char → Bool) (s : String) : String :=
  String.mk (replaceRunsAux allowed false s.data)

/-- The global replacement of the literal double-dash pattern by a
single dash: scan left to right, each non-overlapping match is consumed
and replaced, and the replacement text is not rescanned. -/
def collapseDashPairs : List Char → List Char
  | a :: b :: rest =>
    if a == '-' && b == '-' then '-' :: collapseDashPairs rest
    else a :: collapseDashPairs (b :: rest)
  | l => l

/-- `fixed.replace(double-dash-regex, dash)` on a string. -/
def collapseDoubleDash (s : String) : String :=
  String.mk (collapseDashPairs s.data)

/-- Source `filterPosixPath`. -/
def filterPosixPath (input : String) : String :=
  collapseDoubleDash (replaceDisallowedRuns posixAllowed input)

/-- Source `filterWin32Path`. -/
def filterWin32Path (input : String) : String :=
  collapseDoubleDash (replaceDisallowedRuns win32Allowed input)

/-- Source `filterPath`, with the result of the host platform test
`os.platform() === win32` passed explicitly. -/
def filterPath (platformIsWin32 : Bool) (input : String) : String :=
  collapseDoubleDash
    (if platformIsWin32 then replaceDisallowedRuns win32Allowed input
     else replaceDisallowedRuns posixAllowed input)

/-! ## The substitution driver loop -/

/-- JS `haystack.includes(needle)` on character lists. -/
def listIncludes (needle : List Char) : List Char → Bool
  | [] => needle.isPrefixOf []
  | c :: cs => needle.isPrefixOf (c :: cs) || listIncludes needle cs

/-- JS `haystack.includes(needle)` on strings. -/
def jsIncludes (haystack needle : String) : Bool :=
  listIncludes needle.data haystack.data

/-- The variable-interpolation marker opener (two opening braces). -/
def markerVar : String := "\x7b\x7b"

/-- The tag marker opener (opening brace, percent). -/
def markerTag : String := "\x7b%"

/-- The loop condition of `performSubstitutions`: the current string
contains at least one marker opener. -/
def hasMarker (s : String) : Bool :=
  jsIncludes s markerVar || jsIncludes s markerTag

/-- The render loop of `performSubstitutions`, with explicit fuel. The
render capability (`engine.parseAndRender` bound to the map) may fail;
`.ok none` reports that the fuel ran out while the loop condition still
held (the real loop would keep running). The loop condition is tested
before any fuel is consumed, and the defensive break returns the last
render output when it equals its input. -/
def substLoop {E : Type} (render : String → Except E String) :
    Nat → String → Except E (Option String)
  | 0, current =>
    if hasMarker current then .ok none else .ok (some current)
  | fuel + 1, current =>
    if hasMarker current then
      match render current with
      | .error e => .error e
      | .ok substituted =>
        if substituted = current then .ok (some substituted)
        else substLoop render fuel substituted
    else .ok (some current)

/-- Source `XpmLiquid.performSubstitutions`: empty input is returned at
once without touching the engine; otherwise the render loop runs. -/
def performSubstitutions {E : Type} (render : String → Except E String)
    (fuel : Nat) (input : String) : Except E (Option String) :=
  if input = "" then .ok (some input) else substLoop render fuel input

/-- A render capability that never fails, as assumed by the
termination claim (an arbitrary string-to-string function). -/
def pureRender (f : String → String) : String → Except Unit String :=
  fun s => .ok (f s)

/-- The render loop terminates on `input` under the pure render
behaviour `f`: some finite fuel makes it return a final string. -/
def TerminatesOn (f : String → String) (input : String) : Prop :=
  ∃ fuel out, performSubstitutions (pureRender f) fuel input = .ok (some out)

/-! ## Invariants of the sanitization output -/

/-- No two adjacent characters are both disallowed. -/
def dashSeparated (allowed : Char → Bool) : List Char → Bool
  | a :: b :: rest => (allowed a || allowed b) && dashSeparated allowed (b :: rest)
  | _ => true

/-- The first character, if any, is allowed. -/
def headAllowed (allowed : Char → Bool) : List Char → Bool
  | [] => true
  | c :: _ => allowed c

/-- No two adjacent characters are both dashes. -/
def noDoubleDash : List Char → Bool
  | a :: b :: rest => (!(a == '-' && b == '-')) && noDoubleDash (b :: rest)
  | _ => true

theorem replaceRunsAux_all (allowed : Char → Bool) (b : Bool) (l : List Char) :
    (replaceRunsAux allowed b l).all (fun c => allowed c || c == '-') = true := by
  induction l generalizing b with
  | nil => simp [replaceRunsAux]
  | cons c cs ih =>
    by_cases hc : allowed c = true
    · simp [replaceRunsAux, hc, ih false]
    · have hc' : allowed c = false := by simpa using hc
      cases b <;> simp [replaceRunsAux, hc', ih true]

theorem dashSeparated_cons_allowed (allowed : Char → Bool) (a : Char)
    (l : List Char) (ha : allowed a = true) :
    dashSeparated allowed (a :: l) = dashSeparated allowed l := by
  cases l <;> simp [dashSeparated, ha]

theorem dashSeparated_cons_head (allowed : Char → Bool) (a : Char)
    (l : List Char) (hl : dashSeparated allowed l = true)
    (hh : headAllowed allowed l = true) :
    dashSeparated allowed (a :: l) = true := by
  cases l with
  | nil => simp [dashSeparated]
  | cons b bs =>
    simp only [headAllowed] at hh
    simp [dashSeparated, hh, hl]

theorem dashSeparated_tail (allowed : Char → Bool) (a : Char) (l : List Char)
    (h : dashSeparated allowed (a :: l) = true) :
    dashSeparated allowed l = true := by
  cases l with
  | nil => simp [dashSeparated]
  | cons b bs =>
    simp only [dashSeparated, Bool.and_eq_true] at h
    exact h.2

theorem headAllowed_of_sep (allowed : Char → Bool) (c : Char) (cs : List Char)
    (hc : allowed c = false) (h : dashSeparated allowed (c :: cs) = true) :
    headAllowed allowed cs = true := by
  cases cs with
  | nil => simp [headAllowed]
  | cons b bs =>
    simp only [dashSeparated, Bool.and_eq_true, Bool.or_eq_true] at h
    rcases h.1 with hb | hb
    · rw [hc] at hb; exact absurd hb (by simp)
    · simpa [headAllowed] using hb

theorem replaceRunsAux_sep (allowed : Char → Bool) (l : List Char) :
    dashSeparated allowed (replaceRunsAux allowed false l) = true ∧
    dashSeparated allowed (replaceRunsAux allowed true l) = true ∧
    headAllowed allowed (replaceRunsAux allowed true l) = true := by
  induction l with
  | nil => simp [replaceRunsAux, dashSeparated, headAllowed]
  | cons c cs ih =>
    obtain ⟨ihF, ihT, ihH⟩ := ih
    by_cases hc : allowed c = true
    · refine ⟨?_, ?_, ?_⟩
      · rw [show replaceRunsAux allowed false (c :: cs)
              = c :: replaceRunsAux allowed false cs by simp [replaceRunsAux, hc]]
        rw [dashSeparated_cons_allowed allowed c _ hc]
        exact ihF
      · rw [show replaceRunsAux allowed true (c :: cs)
              = c :: replaceRunsAux allowed false cs by simp [replaceRunsAux, hc]]
        rw [dashSeparated_cons_allowed allowed c _ hc]
        exact ihF
      · rw [show replaceRunsAux allowed true (c :: cs)
              = c :: replaceRunsAux allowed false cs by simp [replaceRunsAux, hc]]
        simpa [headAllowed] using hc
    · have hc' : allowed c = false := by simpa using hc
      refine ⟨?_, ?_, ?_⟩
      · rw [show replaceRunsAux allowed false (c :: cs)
              = '-' :: replaceRunsAux allowed true cs by simp [replaceRunsAux, hc']]
        exact dashSeparated_cons_head allowed _ _ ihT ihH
      · rw [show replaceRunsAux allowed true (c :: cs)
              = replaceRunsAux allowed true cs by simp [replaceRunsAux, hc']]
        exact ihT
      · rw [show replaceRunsAux allowed true (c :: cs)
              = replaceRunsAux allowed true cs by simp [replaceRunsAux, hc']]
        exact ihH

theorem replaceRunsAux_id (allowed : Char → Bool) (hd : allowed '-' = false) :
    ∀ l : List Char,
      ((l.all (fun c => allowed c || c == '-') = true) →
        dashSeparated allowed l = true →
        replaceRunsAux allowed false l = l) ∧
      ((l.all (fun c => allowed c || c == '-') = true) →
        dashSeparated allowed l = true →
        headAllowed allowed l = true →
        replaceRunsAux allowed true l = l) := by
  intro l
  induction l with
  | nil => exact ⟨fun _ _ => rfl, fun _ _ _ => rfl⟩
  | cons c cs ih =>
    constructor
    · intro hall hsep
      have hallc : allowed c = true ∨ c = '-' := by
        have := hall
        simp only [List.all_cons, Bool.and_eq_true, Bool.or_eq_true,
          beq_iff_eq] at this
        exact this.1
      have halltail : cs.all (fun c => allowed c || c == '-') = true := by
        simp only [List.all_cons, Bool.and_eq_true] at hall
        exact hall.2
      rcases hallc with hc | hc
      · rw [show replaceRunsAux allowed false (c :: cs)
              = c :: replaceRunsAux allowed false cs by simp [replaceRunsAux, hc]]
        rw [(ih.1) halltail (dashSeparated_tail allowed c cs hsep)]
      · subst hc
        rw [show replaceRunsAux allowed false ('-' :: cs)
              = '-' :: replaceRunsAux allowed true cs by simp [replaceRunsAux, hd]]
        rw [(ih.2) halltail (dashSeparated_tail allowed _ cs hsep)
          (headAllowed_of_sep allowed _ cs hd hsep)]
    · intro hall hsep hhead
      have hc : allowed c = true := by simpa [headAllowed] using hhead
      have halltail : cs.all (fun c => allowed c || c == '-') = true := by
        simp only [List.all_cons, Bool.and_eq_true] at hall
        exact hall.2
      rw [show replaceRunsAux allowed true (c :: cs)
            = c :: replaceRunsAux allowed false cs by simp [replaceRunsAux, hc]]
      rw [(ih.1) halltail (dashSeparated_tail allowed c cs hsep)]

theorem noDoubleDash_of_sep (allowed : Char → Bool) (hd : allowed '-' = false) :
    ∀ l : List Char, (l.all (fun c => allowed c || c == '-') = true) →
      dashSeparated allowed l = true → noDoubleDash l = true := by
  intro l
  induction l with
  | nil => intro _ _; rfl
  | cons a l ih =>
    cases l with
    | nil => intro _ _; rfl
    | cons b rest =>
      intro hall hsep
      simp only [dashSeparated, Bool.and_eq_true, Bool.or_eq_true] at hsep
      have htail : ((b :: rest).all (fun c => allowed c || c == '-')) = true := by
        simp only [List.all_cons, Bool.and_eq_true] at hall ⊢
        exact hall.2
      have hsep' : dashSeparated allowed (b :: rest) = true := hsep.2
      have hpair : (!(a == '-' && b == '-')) = true := by
        rcases hsep.1 with h | h
        · cases hcl : a == '-' with
          | false => simp [hcl]
          | true =>
            have : a = '-' := by simpa [beq_iff_eq] using hcl
            rw [this] at h; rw [hd] at h; exact absurd h (by simp)
        · cases hcl : b == '-' with
          | false => simp [hcl]
          | true =>
            have : b = '-' := by simpa [beq_iff_eq] using hcl
            rw [this] at h; rw [hd] at h; exact absurd h (by simp)
      simp only [noDoubleDash, Bool.and_eq_true]
      exact ⟨hpair, ih htail hsep'⟩

theorem collapseDashPairs_id :
    ∀ l : List Char, noDoubleDash l = true → collapseDashPairs l = l := by
  intro l
  induction l with
  | nil => intro _; rfl
  | cons a l ih =>
    cases l with
    | nil => intro _; rfl
    | cons b rest =>
      intro h
      simp only [noDoubleDash, Bool.and_eq_true] at h
      have hpair : (a == '-' && b == '-') = false := by
        cases hx : (a == '-' && b == '-') with
        | false => rfl
        | true => rw [hx] at h; exact absurd h.1 (by simp)
      rw [show collapseDashPairs (a :: b :: rest)
            = a :: collapseDashPairs (b :: rest) by
          simp [collapseDashPairs, hpair]]
      rw [ih h.2]

theorem listIncludes_double_dash :
    ∀ l : List Char, noDoubleDash l = true →
      listIncludes ['-', '-'] l = false := by
  intro l
  induction l with
  | nil => intro _; rfl
  | cons a l ih =>
    cases l with
    | nil => intro _; simp [listIncludes, List.isPrefixOf]
    | cons b rest =>
      intro h
      simp only [noDoubleDash, Bool.and_eq_true] at h
      have htail : listIncludes ['-', '-'] (b :: rest) = false := ih h.2
      have hpair : ¬(a = '-' ∧ b = '-') := by
        intro hab
        rw [hab.1, hab.2] at h
        simpa using h.1
      have hpre : (['-', '-'].isPrefixOf (a :: b :: rest)) = false := by
        cases hA : ('-' == a) with
        | false => simp [List.isPrefixOf, hA]
        | true =>
          cases hB : ('-' == b) with
          | false => simp [List.isPrefixOf, hA, hB]
          | true =>
            exact absurd ⟨(beq_iff_eq.mp hA).symm, (beq_iff_eq.mp hB).symm⟩ hpair
      show (['-', '-'].isPrefixOf (a :: b :: rest)
        || listIncludes ['-', '-'] (b :: rest)) = false
      rw [hpre, htail]
      rfl

theorem filterCore_no_double_dash (allowed : Char → Bool)
    (hd : allowed '-' = false) (s : String) :
    listIncludes ['-', '-']
      (collapseDashPairs (replaceRunsAux allowed false s.data)) = false := by
  have hall := replaceRunsAux_all allowed false s.data
  have hsep := (replaceRunsAux_sep allowed s.data).1
  have hnd := noDoubleDash_of_sep allowed hd _ hall hsep
  rw [collapseDashPairs_id _ hnd]
  exact listIncludes_double_dash _ hnd

theorem filter_no_double_dash_str (allowed : Char → Bool)
    (hd : allowed '-' = false) (s : String) :
    jsIncludes (collapseDoubleDash (replaceDisallowedRuns allowed s)) "--"
      = false := by
  show listIncludes ("--".data)
    (collapseDashPairs (replaceRunsAux allowed false s.data)) = false
  have hdd : "--".data = ['-', '-'] := rfl
  rw [hdd]
  exact filterCore_no_double_dash allowed hd s

theorem filterPosixPath_no_double_dash (s : String) :
    jsIncludes (filterPosixPath s) "--" = false :=
  filter_no_double_dash_str posixAllowed (by decide) s

theorem filterWin32Path_no_double_dash (s : String) :
    jsIncludes (filterWin32Path s) "--" = false :=
  filter_no_double_dash_str win32Allowed (by decide) s

theorem filterPath_no_double_dash (b : Bool) (s : String) :
    jsIncludes (filterPath b s) "--" = false := by
  cases b
  · exact filter_no_double_dash_str posixAllowed (by decide) s
  · exact filter_no_double_dash_str win32Allowed (by decide) s

theorem filterCore_idem (allowed : Char → Bool) (hd : allowed '-' = false)
    (s : String) :
    collapseDoubleDash (replaceDisallowedRuns allowed
      (collapseDoubleDash (replaceDisallowedRuns allowed s)))
    = collapseDoubleDash (replaceDisallowedRuns allowed s) := by
  have hall := replaceRunsAux_all allowed false s.data
  have hsep := (replaceRunsAux_sep allowed s.data).1
  have hnd := noDoubleDash_of_sep allowed hd _ hall hsep
  have hcollapse : collapseDashPairs (replaceRunsAux allowed false s.data)
      = replaceRunsAux allowed false s.data := collapseDashPairs_id _ hnd
  have key : replaceRunsAux allowed false (replaceRunsAux allowed false s.data)
      = replaceRunsAux allowed false s.data :=
    (replaceRunsAux_id allowed hd _).1 hall hsep
  show String.mk (collapseDashPairs (replaceRunsAux allowed false
      (String.mk (collapseDashPairs
        (replaceRunsAux allowed false s.data))).data))
    = String.mk (collapseDashPairs (replaceRunsAux allowed false s.data))
  rw [show (String.mk (collapseDashPairs
        (replaceRunsAux allowed false s.data))).data
      = collapseDashPairs (replaceRunsAux allowed false s.data) from rfl]
  rw [hcollapse, key, hcollapse]

/-! ## Claims about the sanitization filters -/

/-- C1, counterexample: the claim says `filterPosixPath "a///b" = "a-b"`,
but the slash belongs to the allowed class of the POSIX variant, so the
separator run is preserved and the output is not `"a-b"`. -/
theorem c1_filterPosixPath_counterexample :
    ¬ (filterPosixPath "a///b" = "a-b") := by decide

/-- C1, amended: `filterPosixPath "a///b"` returns `"a///b"` — the slash
is in the POSIX allowed class `[a-zA-Z0-9/]`, so runs of path separators
survive unchanged. A maximal run of disallowed characters does collapse
to a single dash (`filterPosixPath "a!!!b" = "a-b"`), and the Windows
variant, where the slash is disallowed, maps `"a///b"` to `"a-b"`. -/
theorem c1_filterPosixPath_amended :
    filterPosixPath "a///b" = "a///b" ∧
    filterPosixPath "a!!!b" = "a-b" ∧
    filterWin32Path "a///b" = "a-b" := by decide

/-- C6, counterexample: the claim asserts that some input with a run of
three or more dashes leaves a double dash in the output of one of the
sanitization filters; in fact no input does — the replacement pass has
already collapsed every run of disallowed characters (dashes included)
into a single dash, so the double-dash substitution never finds a
match. -/
theorem c6_double_dash_counterexample :
    ¬ ∃ s : String,
        jsIncludes s "---" = true ∧
        (jsIncludes (filterPosixPath s) "--" = true ∨
         jsIncludes (filterWin32Path s) "--" = true ∨
         ∃ b : Bool, jsIncludes (filterPath b s) "--" = true) := by
  rintro ⟨s, -, h | h | ⟨b, h⟩⟩
  · rw [filterPosixPath_no_double_dash s] at h
    exact absurd h (by simp)
  · rw [filterWin32Path_no_double_dash s] at h
    exact absurd h (by simp)
  · rw [filterPath_no_double_dash b s] at h
    exact absurd h (by simp)

/-- C6, amended: the dash-collapse is indeed a single substitution pass
over literal double-dash occurrences, but it can never fire: for every
input string (in particular those containing runs of three or more
dashes) the output of filterPosixPath, filterWin32Path and filterPath
contains no double dash, because the preceding replacement pass already
collapsed every maximal run of disallowed characters — dashes are
disallowed in both character classes — into a single dash. -/
theorem c6_no_double_dash_in_output (s : String) (b : Bool) :
    jsIncludes (filterPosixPath s) "--" = false ∧
    jsIncludes (filterWin32Path s) "--" = false ∧
    jsIncludes (filterPath b s) "--" = false :=
  ⟨filterPosixPath_no_double_dash s, filterWin32Path_no_double_dash s,
   filterPath_no_double_dash b s⟩

/-- C10: filterPosixPath and filterWin32Path are idempotent — applying
either filter to its own output returns that output unchanged. -/
theorem c10_filters_idempotent (s : String) :
    filterPosixPath (filterPosixPath s) = filterPosixPath s ∧
    filterWin32Path (filterWin32Path s) = filterWin32Path s :=
  ⟨filterCore_idem posixAllowed (by decide) s,
   filterCore_idem win32Allowed (by decide) s⟩

/-! ## Claims about the substitution driver loop -/

theorem substLoop_succ_marker {E : Type} (render : String → Except E String)
    (fuel : Nat) (current : String) (hm : hasMarker current = true) :
    substLoop render (fuel + 1) current =
      match render current with
      | .error e => .error e
      | .ok substituted =>
          if substituted = current then .ok (some substituted)
          else substLoop render fuel substituted := by
  simp [substLoop, hm]

/-- C4: for every input containing neither marker opener (the empty
string included), performSubstitutions returns the input unchanged, for
every render capability and every fuel — in particular for a render
capability that always fails, which shows the engine is never
invoked. -/
theorem c4_no_marker_identity {E : Type} (render : String → Except E String)
    (fuel : Nat) (input : String) (h : hasMarker input = false) :
    performSubstitutions render fuel input = .ok (some input) := by
  by_cases he : input = ""
  · simp [performSubstitutions, he]
  · cases fuel <;> simp [performSubstitutions, he, substLoop, h]

/-- C4 witness: a marker-free input is returned unchanged even under a
render capability that fails on every input. -/
theorem c4_witness :
    hasMarker "plain text" = false ∧
    performSubstitutions (fun _ => (.error 0 : Except Nat String)) 5
      "plain text" = .ok (some "plain text") :=
  ⟨by decide,
   c4_no_marker_identity (fun _ => .error 0) 5 "plain text" (by decide)⟩

/-- A render behaviour that alternates between two marker-containing
strings: every call changes its input, and a marker opener always
remains, so the driver loop never stops. -/
def cycleRender : String → String :=
  fun s => if s = "a\x7b\x7b" then "b\x7b\x7b" else "a\x7b\x7b"

theorem substLoop_cycle (fuel : Nat) :
    substLoop (pureRender cycleRender) fuel "a\x7b\x7b" = .ok none ∧
    substLoop (pureRender cycleRender) fuel "b\x7b\x7b" = .ok none := by
  have hA : hasMarker "a\x7b\x7b" = true := by decide
  have hB : hasMarker "b\x7b\x7b" = true := by decide
  induction fuel with
  | zero => constructor <;> simp [substLoop, hA, hB]
  | succ fuel ih =>
    constructor
    · rw [substLoop_succ_marker _ fuel _ hA]
      simp [pureRender, cycleRender, ih.1, ih.2]
    · rw [substLoop_succ_marker _ fuel _ hB]
      simp [pureRender, cycleRender, ih.1, ih.2]

/-- C3, counterexample: performSubstitutions does not terminate for
every behaviour of the render capability. Under `cycleRender`, which
alternates between two marker-containing strings, the loop runs forever
on input `"a"` followed by two opening braces: no fuel suffices. The
defensive no-progress check only stops exact fixed points, not cycles of
length two. -/
theorem c3_counterexample : ¬ TerminatesOn cycleRender "a\x7b\x7b" := by
  rintro ⟨fuel, out, h⟩
  simp only [performSubstitutions] at h
  rw [if_neg (by decide : ¬("a\x7b\x7b" = ""))] at h
  rw [(substLoop_cycle fuel).1] at h
  exact absurd h (by simp)

theorem substLoop_reaches (f : String → String) :
    ∀ (n : Nat) (input : String),
      (hasMarker (f^[n] input) = false ∨ f (f^[n] input) = f^[n] input) →
      ∃ out, substLoop (pureRender f) (n + 1) input = .ok (some out) := by
  intro n
  induction n with
  | zero =>
    intro input h
    simp only [Function.iterate_zero, id] at h
    by_cases hm : hasMarker input = true
    · rcases h with h | h
      · rw [hm] at h; exact absurd h (by simp)
      · refine ⟨input, ?_⟩
        rw [substLoop_succ_marker _ 0 _ hm]
        simp [pureRender, h]
    · have hm' : hasMarker input = false := by simpa using hm
      exact ⟨input, by simp [substLoop, hm']⟩
  | succ n ih =>
    intro input h
    by_cases hm : hasMarker input = true
    · by_cases hfix : f input = input
      · refine ⟨input, ?_⟩
        rw [substLoop_succ_marker _ (n + 1) _ hm]
        simp [pureRender, hfix]
      · have hiter : f^[n + 1] input = f^[n] (f input) :=
          Function.iterate_succ_apply f n input
        rw [hiter] at h
        obtain ⟨out, hout⟩ := ih (f input) h
        refine ⟨out, ?_⟩
        rw [substLoop_succ_marker _ (n + 1) _ hm]
        simp only [pureRender]
        rw [if_neg hfix]
        exact hout
    · have hm' : hasMarker input = false := by simpa using hm
      exact ⟨input, by simp [substLoop, hm']⟩

/-- C3, amended: the loop ends exactly under the two stated conditions,
and they are not guaranteed to ever arise: termination holds whenever
iterating the (pure) render behaviour from the input eventually yields a
string that either contains neither marker opener or is a fixed point of
the render behaviour — the fixed-point case is the defensive check that
costs one extra render call — and a render behaviour that keeps changing
a marker-containing string (for example a two-cycle) makes the loop run
forever, as the companion counterexample shows. -/
theorem c3_termination_amended (f : String → String) (input : String)
    (n : Nat)
    (h : hasMarker (f^[n] input) = false ∨ f (f^[n] input) = f^[n] input) :
    ∃ out, performSubstitutions (pureRender f) (n + 1) input
      = .ok (some out) := by
  by_cases he : input = ""
  · exact ⟨"", by simp [performSubstitutions, he]⟩
  · obtain ⟨out, hout⟩ := substLoop_reaches f n input h
    exact ⟨out, by simp [performSubstitutions, he, hout]⟩

/-- A render behaviour expanding the single placeholder template to a
marker-free string in one pass. -/
def demoRender : String → String :=
  fun s => if s = "\x7b\x7b a \x7d\x7d" then "done" else s

/-- C3 witness: under `demoRender` the iterate after one call is
marker-free and the loop stops with fuel two on the template input. -/
theorem c3_witness :
    (hasMarker (demoRender^[1] "\x7b\x7b a \x7d\x7d") = false ∨
      demoRender (demoRender^[1] "\x7b\x7b a \x7d\x7d")
        = demoRender^[1] "\x7b\x7b a \x7d\x7d") ∧
    ∃ out, performSubstitutions (pureRender demoRender) 2
      "\x7b\x7b a \x7d\x7d" = .ok (some out) := by
  have h1 : demoRender^[1] "\x7b\x7b a \x7d\x7d" = "done" := by
    rw [Function.iterate_one]
    simp [demoRender]
  have h : hasMarker (demoRender^[1] "\x7b\x7b a \x7d\x7d") = false ∨
      demoRender (demoRender^[1] "\x7b\x7b a \x7d\x7d")
        = demoRender^[1] "\x7b\x7b a \x7d\x7d" := by
    rw [h1]; exact Or.inl (by decide)
  exact ⟨h, c3_termination_amended demoRender "\x7b\x7b a \x7d\x7d" 1 h⟩

theorem substLoop_error {E : Type} (render : String → Except E String) :
    ∀ (fuel : Nat) (input : String) (e : E),
      substLoop render fuel input = .error e →
      ∃ s, hasMarker s = true ∧ render s = .error e := by
  intro fuel
  induction fuel with
  | zero =>
    intro input e h
    by_cases hm : hasMarker input = true <;> simp [substLoop, hm] at h
  | succ fuel ih =>
    intro input e h
    by_cases hm : hasMarker input = true
    · rw [substLoop_succ_marker render fuel input hm] at h
      split at h
      next e2 hr =>
        injection h with he
        subst he
        exact ⟨input, hm, hr⟩
      next substituted hr =>
        by_cases hs : substituted = input
        · rw [if_pos hs] at h
          exact absurd h (by simp)
        · rw [if_neg hs] at h
          exact ih substituted e h
    · have hm' : hasMarker input = false := by simpa using hm
      simp [substLoop, hm'] at h

/-- C7: when performSubstitutions fails, the error it raises is exactly
an error produced by a render call on some marker-containing string —
the driver applies no catch, wrap, retry or recovery — and by the shape
of the result no partially expanded string accompanies a failure: the
call either returns a string or raises. -/
theorem c7_error_propagation {E : Type} (render : String → Except E String)
    (fuel : Nat) (input : String) (e : E)
    (h : performSubstitutions render fuel input = .error e) :
    ∃ s, hasMarker s = true ∧ render s = .error e := by
  by_cases he : input = ""
  · simp [performSubstitutions, he] at h
  · simp only [performSubstitutions, if_neg he] at h
    exact substLoop_error render fuel input e h

/-- A render capability failing on every input. -/
def failRender : String → Except Nat String := fun _ => .error 7

/-- C7 witness: a failing render call makes performSubstitutions raise
that very error, which the theorem traces back to a render call. -/
theorem c7_witness :
    performSubstitutions failRender 3 "\x7b\x7bx" = .error 7 ∧
    ∃ s, hasMarker s = true ∧ failRender s = .error 7 := by
  have h : performSubstitutions failRender 3 "\x7b\x7bx" = .error 7 := rfl
  exact ⟨h, c7_error_propagation failRender 3 "\x7b\x7bx" 7 h⟩

/-! ## Association-list lemmas for the map builder -/

theorem lookupField_append (l1 l2 : Fields) (k : String) :
    lookupField (l1 ++ l2) k =
      match lookupField l1 k with
      | some v => some v
      | none => lookupField l2 k := by
  induction l1 with
  | nil => rfl
  | cons kv rest ih =>
    by_cases hk : (kv.1 == k) = true
    · simp [lookupField, hk]
    · have hk' : (kv.1 == k) = false := by simpa using hk
      simp [lookupField, hk', ih]

theorem lookupField_map_value (g : String → JValue → JValue) (l : Fields)
    (k : String) :
    lookupField (l.map (fun kv => (kv.1, g kv.1 kv.2))) k
      = (lookupField l k).map (g k) := by
  induction l with
  | nil => rfl
  | cons kv rest ih =>
    obtain ⟨k1, v1⟩ := kv
    by_cases hk : (k1 == k) = true
    · have hkey : k1 = k := by simpa [beq_iff_eq] using hk
      subst hkey
      simp [lookupField, hk]
    · have hk' : (k1 == k) = false := by simpa using hk
      simp [lookupField, hk', ih]

theorem lookupField_filter (p : String × JValue → Bool) (l : Fields)
    (k : String) (hp : ∀ v, p (k, v) = true) :
    lookupField (l.filter p) k = lookupField l k := by
  induction l with
  | nil => rfl
  | cons kv rest ih =>
    obtain ⟨k1, v1⟩ := kv
    by_cases hk : (k1 == k) = true
    · have hkey : k1 = k := by simpa [beq_iff_eq] using hk
      subst hkey
      simp [List.filter_cons, hp v1, lookupField, hk]
    · have hk' : (k1 == k) = false := by simpa using hk
      by_cases hpkv : p (k1, v1) = true
      · simp [List.filter_cons, hpkv, lookupField, hk', ih]
      · have hpkv' : p (k1, v1) = false := by simpa using hpkv
        simp [List.filter_cons, hpkv', lookupField, hk', ih]

theorem lookupField_spreadFields (a b : Fields) (k : String) :
    lookupField (spreadFields a b) k =
      match lookupField b k with
      | some v => some v
      | none => lookupField a k := by
  rw [spreadFields, lookupField_append]
  rw [lookupField_map_value (fun key v => (lookupField b key).getD v) a k]
  cases hb : lookupField b k with
  | some w =>
    cases ha : lookupField a k with
    | some v => simp [ha, hb]
    | none =>
      rw [lookupField_filter _ b k (fun v => by simp [ha])]
      simp [ha, hb]
  | none =>
    cases ha : lookupField a k with
    | some v => simp [ha, hb]
    | none =>
      rw [lookupField_filter _ b k (fun v => by simp [ha])]
      simp [ha, hb]

theorem lookupField_map_override (fs : Fields) (key : String) (v : JValue)
    (h : (lookupField fs key).isSome = true) :
    lookupField (fs.map (fun kv => if kv.1 == key then (kv.1, v) else kv))
      key = some v := by
  induction fs with
  | nil => simp [lookupField] at h
  | cons kv rest ih =>
    obtain ⟨k1, v1⟩ := kv
    by_cases hk : (k1 == key) = true
    · simp [List.map_cons, hk, lookupField]
    · have hk' : (k1 == key) = false := by simpa using hk
      have h2 : (lookupField rest key).isSome = true := by
        simpa [lookupField, hk'] using h
      have ih2 := ih h2
      simp only [beq_iff_eq] at ih2
      simp [List.map_cons, hk', lookupField, ih2]

theorem lookupField_map_override_other (fs : Fields) (key k : String)
    (v : JValue) (hne : k ≠ key) :
    lookupField (fs.map (fun kv => if kv.1 == key then (kv.1, v) else kv)) k
      = lookupField fs k := by
  induction fs with
  | nil => rfl
  | cons kv rest ih =>
    obtain ⟨k1, v1⟩ := kv
    by_cases hk : (k1 == key) = true
    · have hkey : k1 = key := by simpa [beq_iff_eq] using hk
      have hk2 : (k1 == k) = false := by
        subst hkey
        exact beq_eq_false_iff_ne.mpr (fun hh => hne hh.symm)
      have ih2 := ih
      simp only [beq_iff_eq] at ih2
      simp [List.map_cons, hk, lookupField, hk2, ih2]
    · have hk' : (k1 == key) = false := by simpa using hk
      by_cases hk2 : (k1 == k) = true
      · simp [List.map_cons, hk', lookupField, hk2]
      · have hk2' : (k1 == k) = false := by simpa using hk2
        have ih2 := ih
        simp only [beq_iff_eq] at ih2
        simp [List.map_cons, hk', lookupField, hk2', ih2]

theorem lookupField_setField_same (fs : Fields) (key : String) (v : JValue) :
    lookupField (setField fs key v) key = some v := by
  rw [setField]
  by_cases h : (lookupField fs key).isSome = true
  · rw [if_pos h]
    exact lookupField_map_override fs key v h
  · rw [if_neg h]
    have h' : lookupField fs key = none := by
      cases hx : lookupField fs key with
      | none => rfl
      | some w => rw [hx] at h; simp at h
    rw [lookupField_append]
    simp [h', lookupField]

theorem lookupField_setField_other (fs : Fields) (key k : String)
    (v : JValue) (hne : k ≠ key) :
    lookupField (setField fs key v) k = lookupField fs k := by
  rw [setField]
  by_cases h : (lookupField fs key).isSome = true
  · rw [if_pos h]
    exact lookupField_map_override_other fs key k v hne
  · rw [if_neg h]
    rw [lookupField_append]
    have hone : lookupField [(key, v)] k = none := by
      simp [lookupField, beq_eq_false_iff_ne.mpr (fun hh => hne hh.symm)]
    cases hx : lookupField fs k <;> simp [hx, hone]

/-! ## Claims about prepareMap -/

/-- C2, amended: the "no buildConfigurations" requirement lives inside
the branch taken when the descriptor's xpack field is a JSON object:
whenever that object lacks a buildConfigurations field and the supplied
configuration name is non-blank after trimming, prepareMap raises the
descriptive "no buildConfigurations" error. When the descriptor has no
xpack object at all, prepareMap instead returns a map (with empty
properties and no configuration) without consulting the configuration
name — so absence of buildConfigurations alone does not force an
error. -/
theorem c2_no_buildConfigurations_error (eol : String) (pf xf : Fields)
    (name : String)
    (hx : lookupField pf "xpack" = some (JValue.obj xf))
    (hb : lookupField xf "buildConfigurations" = none)
    (hn : jsTrim name ≠ "") :
    prepareMap eol (JValue.obj pf) (some name)
      = .error (.thrown "package.json has no buildConfigurations") := by
  simp [prepareMap, isFalsy, getProp, getPropOpt, _isJsonObject, _isPrimitive,
    isArray, hx, hb, hn, bne_iff_ne]

/-- C2, counterexample: the claim quantifies over every package
descriptor that provides no buildConfigurations mapping, but a
descriptor without an xpack object provides none and still gets a map
back — with the non-blank configuration name "dev", prepareMap on the
empty-object descriptor returns a map instead of raising. -/
theorem c2_counterexample :
    (jsTrim "dev" != "") = true ∧
    prepareMap "\n" (JValue.obj []) (some "dev")
      = .ok { package := JValue.obj [], configuration := none,
              properties := [] } :=
  ⟨by decide, rfl⟩

/-- The spec's example descriptor with base properties and no
buildConfigurations table. -/
def demoPackageNoBC : Fields :=
  [("xpack", JValue.obj [("properties", JValue.obj [("a", JValue.str "1")])])]

/-- C2 witness: the spec's example call raises the descriptive
error. -/
theorem c2_witness :
    (lookupField demoPackageNoBC "xpack"
      = some (JValue.obj [("properties", JValue.obj [("a", JValue.str "1")])]))
    ∧ (lookupField [("properties", JValue.obj [("a", JValue.str "1")])]
        "buildConfigurations" = none)
    ∧ (jsTrim "missing" ≠ "")
    ∧ prepareMap "\n" (JValue.obj demoPackageNoBC) (some "missing")
        = .error (.thrown "package.json has no buildConfigurations") := by
  refine ⟨rfl, rfl, by decide, ?_⟩
  exact c2_no_buildConfigurations_error "\n" demoPackageNoBC _ "missing"
    rfl rfl (by decide)

/-- C5: with flattened base properties under xpack.properties and a
selected configuration entry carrying its own properties object, the
properties of the returned map are the base properties overlaid by the
flattened configuration properties — on a key collision the
configuration value wins, and keys present on only one side are
kept. -/
theorem c5_properties_overlay (eol : String)
    (pf xf basefs bcfs efs cfgfs : Fields) (name : String)
    (hx : lookupField pf "xpack" = some (JValue.obj xf))
    (hp : lookupField xf "properties" = some (JValue.obj basefs))
    (hb : lookupField xf "buildConfigurations" = some (JValue.obj bcfs))
    (he : lookupField bcfs name = some (JValue.obj efs))
    (hcp : lookupField efs "properties" = some (JValue.obj cfgfs))
    (hn : jsTrim name ≠ "") :
    ∃ m, prepareMap eol (JValue.obj pf) (some name) = .ok m ∧
      ∀ k, lookupField m.properties k =
        match lookupField (_joinMultiLineProperties eol cfgfs) k with
        | some v => some v
        | none => lookupField (_joinMultiLineProperties eol basefs) k := by
  have hrun : prepareMap eol (JValue.obj pf) (some name)
      = .ok { package := JValue.obj pf
              configuration := some (setField efs "name" (JValue.str name))
              properties :=
                spreadFields (_joinMultiLineProperties eol basefs)
                  (_joinMultiLineProperties eol cfgfs) } := by
    simp [prepareMap, isFalsy, getProp, getPropOpt, _isJsonObject,
      _isPrimitive, isArray, jsAccess, jsSpreadValue, objFields,
      hx, hp, hb, he, hcp, hn, bne_iff_ne]
  exact ⟨_, hrun, fun k =>
    lookupField_spreadFields (_joinMultiLineProperties eol basefs)
      (_joinMultiLineProperties eol cfgfs) k⟩

/-- The spec's example descriptor with base properties and a "dev"
configuration carrying its own properties. -/
def demoPackageDev : Fields :=
  [("xpack", JValue.obj
    [("properties", JValue.obj [("a", JValue.str "1")]),
     ("buildConfigurations", JValue.obj
       [("dev", JValue.obj
         [("properties", JValue.obj [("b", JValue.str "2")])])])])]

/-- C5 witness: the spec's merge example, run at the concrete
descriptor. -/
theorem c5_witness :
    (lookupField demoPackageDev "xpack"
      = some (JValue.obj
        [("properties", JValue.obj [("a", JValue.str "1")]),
         ("buildConfigurations", JValue.obj
           [("dev", JValue.obj
             [("properties", JValue.obj [("b", JValue.str "2")])])])])) ∧
    (jsTrim "dev" ≠ "") ∧
    ∃ m, prepareMap "\n" (JValue.obj demoPackageDev) (some "dev") = .ok m ∧
      ∀ k, lookupField m.properties k =
        match lookupField
          (_joinMultiLineProperties "\n" [("b", JValue.str "2")]) k with
        | some v => some v
        | none => lookupField
            (_joinMultiLineProperties "\n" [("a", JValue.str "1")]) k := by
  refine ⟨rfl, by decide, ?_⟩
  exact c5_properties_overlay "\n" demoPackageDev _ _ _ _ _ "dev"
    rfl rfl rfl rfl rfl (by decide)

/-- C9: when prepareMap is called with a non-blank configuration name
found in buildConfigurations, the configuration field of the returned
map is a shallow copy of that entry with an injected name field equal to
the requested name — the injected name wins even when the entry itself
defines a name field — and every other field of the entry is passed
through unchanged. -/
theorem c9_configuration_injected_name (eol : String)
    (pf xf bcfs efs : Fields) (name : String)
    (hx : lookupField pf "xpack" = some (JValue.obj xf))
    (hb : lookupField xf "buildConfigurations" = some (JValue.obj bcfs))
    (he : lookupField bcfs name = some (JValue.obj efs))
    (hn : jsTrim name ≠ "") :
    ∃ m, prepareMap eol (JValue.obj pf) (some name) = .ok m ∧
      ∃ cfg, m.configuration = some cfg ∧
        lookupField cfg "name" = some (JValue.str name) ∧
        ∀ k, k ≠ "name" → lookupField cfg k = lookupField efs k := by
  have hrun : prepareMap eol (JValue.obj pf) (some name)
      = .ok { package := JValue.obj pf
              configuration := some (setField efs "name" (JValue.str name))
              properties :=
                (if _isJsonObject (lookupField efs "properties") then
                  spreadFields
                    (if _isJsonObject (lookupField xf "properties") then
                      _joinMultiLineProperties eol
                        (objFields (lookupField xf "properties"))
                     else [])
                    (_joinMultiLineProperties eol
                      (objFields (lookupField efs "properties")))
                 else
                  (if _isJsonObject (lookupField xf "properties") then
                    _joinMultiLineProperties eol
                      (objFields (lookupField xf "properties"))
                   else [])) } := by
    simp [prepareMap, isFalsy, getProp, getPropOpt, jsAccess, jsSpreadValue,
      _isJsonObject, _isPrimitive, isArray, hx, hb, he, hn, bne_iff_ne]
  refine ⟨_, hrun, setField efs "name" (JValue.str name), rfl, ?_, ?_⟩
  · exact lookupField_setField_same efs "name" (JValue.str name)
  · intro k hk
    exact lookupField_setField_other efs "name" k (JValue.str name) hk

/-- A descriptor whose "dev" configuration entry defines its own name
field, which the injected name must override. -/
def demoPackageNamed : Fields :=
  [("xpack", JValue.obj
    [("buildConfigurations", JValue.obj
      [("dev", JValue.obj
        [("name", JValue.str "other"), ("opt", JValue.str "1")])])])]

/-- C9 witness: the injected name wins over the entry's own name field
and the remaining fields pass through. -/
theorem c9_witness :
    (lookupField demoPackageNamed "xpack"
      = some (JValue.obj
        [("buildConfigurations", JValue.obj
          [("dev", JValue.obj
            [("name", JValue.str "other"), ("opt", JValue.str "1")])])])) ∧
    (jsTrim "dev" ≠ "") ∧
    ∃ m, prepareMap "\n" (JValue.obj demoPackageNamed) (some "dev")
        = .ok m ∧
      ∃ cfg, m.configuration = some cfg ∧
        lookupField cfg "name" = some (JValue.str "dev") ∧
        ∀ k, k ≠ "name" → lookupField cfg k
          = lookupField
              [("name", JValue.str "other"), ("opt", JValue.str "1")] k := by
  refine ⟨rfl, by decide, ?_⟩
  exact c9_configuration_injected_name "\n" demoPackageNamed _ _ _ "dev"
    rfl rfl rfl (by decide)

/-! ## The multi-line property flattening claim -/

/-- A value of the module's `Properties` type: a single string, or an
array of strings (the lines of a multi-line property). -/
def isPropertiesValue : JValue → Bool
  | .str _ => true
  | .arr xs => xs.all (fun x => match x with | JValue.str _ => true | _ => false)
  | _ => false

theorem map_joinElement_str (ls : List String) :
    ls.map (joinElementToString ∘ JValue.str) = ls := by
  induction ls with
  | nil => rfl
  | cons a l ih => simp [Function.comp, joinElementToString, ih]

/-- C8: flattening a Properties mapping joins each array value's lines
into one string with the host end-of-line marker and leaves string
values unchanged; afterwards every value of the map is a single
string. -/
theorem c8_join_multiline (eol : String) (props : Fields)
    (h : props.all (fun kv => isPropertiesValue kv.2) = true) :
    ((_joinMultiLineProperties eol props).all
      (fun kv => match kv.2 with | JValue.str _ => true | _ => false)
        = true) ∧
    (∀ (k : String) (ls : List String),
      (k, JValue.arr (ls.map JValue.str)) ∈ props →
      (k, JValue.str (String.intercalate eol ls))
        ∈ _joinMultiLineProperties eol props) ∧
    (∀ (k s : String), (k, JValue.str s) ∈ props →
      (k, JValue.str s) ∈ _joinMultiLineProperties eol props) := by
  refine ⟨?_, ?_, ?_⟩
  · rw [List.all_eq_true] at h ⊢
    intro kv hkv
    rw [_joinMultiLineProperties, List.mem_map] at hkv
    obtain ⟨⟨k0, v0⟩, hmem, hmap⟩ := hkv
    have hv0 := h _ hmem
    cases v0 with
    | str s => rw [← hmap]
    | arr xs => rw [← hmap]
    | null => simp [isPropertiesValue] at hv0
    | num n => simp [isPropertiesValue] at hv0
    | bool b => simp [isPropertiesValue] at hv0
    | obj fs => simp [isPropertiesValue] at hv0
  · intro k ls hmem
    rw [_joinMultiLineProperties, List.mem_map]
    refine ⟨(k, JValue.arr (ls.map JValue.str)), hmem, ?_⟩
    simp [map_joinElement_str]
  · intro k s hmem
    rw [_joinMultiLineProperties, List.mem_map]
    exact ⟨(k, JValue.str s), hmem, rfl⟩

/-- The spec's example Properties mapping: a multi-line value and a
plain string value. -/
def demoProperties : Fields :=
  [("a", JValue.arr [JValue.str "line1", JValue.str "line2"]),
   ("b", JValue.str "x")]

/-- C8 witness: the example mapping flattens to single strings, with
the multi-line value joined by the end-of-line marker. -/
theorem c8_witness :
    (demoProperties.all (fun kv => isPropertiesValue kv.2) = true) ∧
    (((_joinMultiLineProperties "\n" demoProperties).all
      (fun kv => match kv.2 with | JValue.str _ => true | _ => false)
        = true) ∧
     (∀ (k : String) (ls : List String),
       (k, JValue.arr (ls.map JValue.str)) ∈ demoProperties →
       (k, JValue.str (String.intercalate "\n" ls))
         ∈ _joinMultiLineProperties "\n" demoProperties) ∧
     (∀ (k s : String), (k, JValue.str s) ∈ demoProperties →
       (k, JValue.str s) ∈ _joinMultiLineProperties "\n" demoProperties)) :=
  ⟨by decide, c8_join_multiline "\n" demoProperties (by decide)⟩
